import Mathlib

/-!
Shallow embedding of the puzzlebox core (a registry of finite-state-machine
instances mutated by named actions, with a subscription/notification fan-out)
together with proofs of the spec's testable properties.

Sources embedded:
- src/common/types.ts      (State, Action)
- src/common/Puzzle.ts     (Puzzle class: addState, initializePuzzle,
                            getActions, getState, getCurrentState, performAction)
- src/stores/PuzzleStore.ts and src/unnamed/part_001
                           (PuzzleStore: addPuzzle, updatePuzzle, getPuzzle)
- src/tools/puzzles.ts     (addPuzzle, getPuzzleSnapshot, performAction)
- src/common/utils.ts      (PUZZLE_RESOURCE_PATH, getPuzzleResourceUri,
                            getTestPuzzleConfig)
- src/puzzlebox.ts         (ReadResourceRequestSchema handler's id extraction;
                            perform_action_on_puzzle notification loop)

JavaScript `Map` objects are modelled as insertion-ordered association lists
over `String` keys; `undefined`-able values are modelled with `Option`.
A JS `Map` never holds two entries with the same key, so `set` below replaces
the first matching entry in place (keeping insertion order) or appends a fresh
entry at the end, exactly as `Map.prototype.set` does.
-/

set_option autoImplicit false

namespace Puzzlebox

universe u

/-- JS `Map.prototype.get`: value stored at the entry whose key matches, or
`none` when the key is absent. -/
def mapGet {α : Type u} : List (String × α) → String → Option α
  | [], _ => none
  | e :: rest, k => if e.1 == k then some e.2 else mapGet rest k

/-- JS `Map.prototype.has`. -/
def mapHas {α : Type u} (m : List (String × α)) (k : String) : Bool :=
  (mapGet m k).isSome

/-- JS `Map.prototype.set`: replace the value in place when the key exists
(keeping insertion order), otherwise append a fresh entry. -/
def mapSet {α : Type u} : List (String × α) → String → α → List (String × α)
  | [], k, v => [(k, v)]
  | e :: rest, k, v => if e.1 == k then (k, v) :: rest else e :: mapSet rest k v

/-- JS `Map.prototype.keys` (insertion order). -/
def mapKeys {α : Type u} (m : List (String × α)) : List String :=
  m.map Prod.fst

/-- The `Action` interface from src/common/types.ts: a named edge with a target
state. -/
structure Action where
  name : String
  targetState : String
deriving DecidableEq, Repr

/-- The `State` interface from src/common/types.ts: a named node with optional
guard names and an optional action map. In a raw parsed configuration
`actions` is a plain record (here: an ordered entry list); `Puzzle.addState`
re-materializes it as a `Map` with identical entries. -/
structure State where
  name : String
  enterGuard : Option String := none
  exitGuard : Option String := none
  actions : Option (List (String × Action)) := none
deriving DecidableEq, Repr

/-- Output of `puzzleSchema` (src/common/schemas.ts) on a schema-valid raw
configuration: required `initialState`, a record of states (ordered
key/definition entries), optional `id`. Values of this type are exactly the
schema-valid puzzle definitions. -/
structure PuzzleConfig where
  id : Option String := none
  initialState : String
  states : List (String × State)
deriving DecidableEq, Repr

/-- The `Puzzle` class fields (src/common/Puzzle.ts lines 5-9). -/
structure Puzzle where
  id : String
  states : List (String × State) := []
  initialState : Option String := none
  currentState : Option String := none
deriving DecidableEq, Repr

/-- Method `Puzzle.addState` (src/common/Puzzle.ts lines 40-51): re-materialize the
state's action record as a `Map` keyed by the record keys, store the state in
`this.states` under `state.name`, and when `isInitial` set both
`currentState` and `initialState` to `state.name`. An absent (`undefined`)
action record yields an empty `Map`, exactly as `state.actions = new Map()`
does before the (then skipped) copy loop. -/
def Puzzle.addState (p : Puzzle) (state : State) (isInitial : Bool := false) :
    Puzzle :=
  let actions := state.actions
  let state1 : State :=
    { state with
      actions := some ((actions.getD []).foldl (fun m e => mapSet m e.1 e.2) []) }
  let p1 : Puzzle := { p with states := mapSet p.states state1.name state1 }
  if isInitial then
    { p1 with currentState := some state1.name, initialState := some state1.name }
  else p1

/-- Method `Puzzle.initializePuzzle` (src/common/Puzzle.ts lines 21-33), success
branch: the raw configuration has already passed `puzzleSchema.safeParse`
(hence the typed `PuzzleConfig` argument); each state entry is added with
`isInitial` exactly when its record key equals `config.initialState`, and the
method returns `config.initialState`. -/
def Puzzle.initializePuzzle (p : Puzzle) (config : PuzzleConfig) :
    Puzzle × String :=
  (config.states.foldl
    (fun q e => q.addState e.2 (e.1 == config.initialState)) p,
   config.initialState)

/-- The `Puzzle` constructor (src/common/Puzzle.ts lines 11-14) applied to a
schema-valid configuration: run `initializePuzzle` and assign its return value
to `this.initialState`. -/
def mkPuzzle (id : String) (config : PuzzleConfig) : Puzzle :=
  let r := Puzzle.initializePuzzle { id := id } config
  { r.1 with initialState := some r.2 }

/-- Method `Puzzle.getActions` (src/common/Puzzle.ts lines 74-81): the keys of the
named state's action map, or `[]` when the state is unknown or has no action
map. -/
def Puzzle.getActions (p : Puzzle) (stateName : String) : List String :=
  match mapGet p.states stateName with
  | some state =>
    match state.actions with
    | some acts => mapKeys acts
    | none => []
  | none => []

/-- Method `Puzzle.getState` (src/common/Puzzle.ts lines 87-89). -/
def Puzzle.getState (p : Puzzle) (stateName : String) : Option State :=
  mapGet p.states stateName

/-- Method `Puzzle.getCurrentState` (src/common/Puzzle.ts lines 94-100). -/
def Puzzle.getCurrentState (p : Puzzle) : Option State :=
  match p.currentState with
  | none =>
    match p.initialState with
    | none => none
    | some i => mapGet p.states i
  | some c => mapGet p.states c

/-- Method `Puzzle.performAction` (src/common/Puzzle.ts lines 110-120). The method
resolves `actionName` in the current state's action map; when present it
assigns `currentState := currentState?.actions?.get(actionName)?.targetState`
and reports success, otherwise it reports failure and changes nothing. The
exit/enter guard checks announced in the method's doc comment are TODO
comments in the source (lines 114-115): no guard oracle is consulted, which
is why this embedding takes no oracle argument. The returned pair is
(success, updated puzzle). -/
def Puzzle.performAction (p : Puzzle) (actionName : String) : Bool × Puzzle :=
  match p.getCurrentState with
  | none => (false, p)
  | some cs =>
    match cs.actions with
    | none => (false, p)
    | some acts =>
      if mapHas acts actionName then
        (true,
         { p with currentState := (mapGet acts actionName).map Action.targetState })
      else (false, p)

/-- The singleton puzzle map held by `PuzzleStore` (src/stores/PuzzleStore.ts
line 6 / src/unnamed/part_001 line 6), passed explicitly. -/
abbrev PuzzleMap := List (String × Puzzle)

/-- Method `PuzzleStore.addPuzzle` (src/unnamed/part_001 lines 11-16): construct a
`Puzzle` from the config and store it under its id. The id comes from
`createId("puzzle")` (src/common/utils.ts lines 3-5), which is
`Math.random`-based; the freshly drawn id is therefore a parameter here. -/
def PuzzleStore.addPuzzle (puzzleId : String) (config : PuzzleConfig)
    (puzzles : PuzzleMap) : Puzzle × PuzzleMap :=
  let puzzle := mkPuzzle puzzleId config
  (puzzle, mapSet puzzles puzzle.id puzzle)

/-- Method `PuzzleStore.updatePuzzle` (src/unnamed/part_001 lines 22-29): replace the
stored instance only when `puzzle.id` is already a key; return whether the
replacement occurred, paired with the resulting map. -/
def PuzzleStore.updatePuzzle (puzzle : Puzzle) (puzzles : PuzzleMap) :
    Bool × PuzzleMap :=
  if mapHas puzzles puzzle.id then (true, mapSet puzzles puzzle.id puzzle)
  else (false, puzzles)

/-- Method `PuzzleStore.getPuzzle` (src/unnamed/part_001 lines 35-37). -/
def PuzzleStore.getPuzzle (puzzleId : String) (puzzles : PuzzleMap) :
    Option Puzzle :=
  mapGet puzzles puzzleId

/-- Response shape of `getPuzzleSnapshot` (src/tools/puzzles.ts lines 26-29);
both fields stay `undefined` when the puzzle or its current state cannot be
resolved. -/
structure GetPuzzleSnapshotResponse where
  currentState : Option String := none
  availableActions : Option (List String) := none
deriving DecidableEq, Repr

/-- Function `getPuzzleSnapshot` (src/tools/puzzles.ts lines 63-78): resolve the
puzzle, then its current state; only when the state exists and its `name` is
truthy (a non-empty string) fill in `currentState` and
`availableActions = puzzle.getActions(currentState)`. -/
def getPuzzleSnapshot (puzzleId : String) (puzzles : PuzzleMap) :
    GetPuzzleSnapshotResponse :=
  match PuzzleStore.getPuzzle puzzleId puzzles with
  | none => {}
  | some puzzle =>
    match puzzle.getCurrentState with
    | none => {}
    | some cs =>
      if cs.name == "" then {}
      else
        { currentState := some cs.name,
          availableActions := some (puzzle.getActions cs.name) }

/-- Response shape of the tools-layer `performAction`
(src/tools/puzzles.ts lines 31-33). -/
structure PerformActionOnPuzzlesResponse where
  success : Bool
deriving DecidableEq, Repr

/-- Tools-layer `performAction` (src/tools/puzzles.ts lines 106-121): only
when the snapshot's `availableActions` includes `actionName` is the puzzle
fetched and `Puzzle.performAction` run; on success the (mutated) puzzle is
written back through `PuzzleStore.updatePuzzle` and that call's return value
becomes the reported success. The pair is (response, updated store). -/
def performAction (puzzleId : String) (actionName : String)
    (puzzles : PuzzleMap) : PerformActionOnPuzzlesResponse × PuzzleMap :=
  let snapshot := getPuzzleSnapshot puzzleId puzzles
  match snapshot.availableActions with
  | none => ({ success := false }, puzzles)
  | some avail =>
    if avail.contains actionName then
      match PuzzleStore.getPuzzle puzzleId puzzles with
      | none => ({ success := false }, puzzles)
      | some puzzle =>
        let r := puzzle.performAction actionName
        if r.1 then
          let u := PuzzleStore.updatePuzzle r.2 puzzles
          ({ success := u.1 }, u.2)
        else ({ success := false }, puzzles)
    else ({ success := false }, puzzles)

/-- Response shape of the tools-layer `addPuzzle`
(src/tools/puzzles.ts lines 6-10). -/
structure AddPuzzleResponse where
  success : Bool
  error : Option String := none
  puzzleId : Option String := none
deriving DecidableEq, Repr

/-- Outcome of running `JSON.parse` followed by `puzzleSchema.safeParse` on a
raw configuration string (both are external library calls, abstracted as this
input classification): the string is not valid JSON and `JSON.parse` throws
with the given message; or it parses but fails schema validation (missing
`initialState`, `states` not a name-to-definition record, or a malformed
state/action entry); or it yields a schema-valid configuration. -/
inductive ParsedConfig where
  | unparsable (msg : String)
  | schemaInvalid
  | valid (config : PuzzleConfig)

/-- Tools-layer `addPuzzle` (src/tools/puzzles.ts lines 38-54): a thrown
`JSON.parse` error is caught and its message stored in `error`; a failed
`safeParse` leaves the initial `{ success: false }` response untouched (no
error detail is attached); a schema-valid config is stored under a fresh id
and `{ success: true, puzzleId }` returned. -/
def addPuzzle (input : ParsedConfig) (freshId : String) (puzzles : PuzzleMap) :
    AddPuzzleResponse × PuzzleMap :=
  match input with
  | .unparsable msg => ({ success := false, error := some msg }, puzzles)
  | .schemaInvalid => ({ success := false }, puzzles)
  | .valid config =>
    let r := PuzzleStore.addPuzzle freshId config puzzles
    ({ success := true, puzzleId := some r.1.id }, r.2)

/-- Constant `PUZZLE_RESOURCE_PATH` (src/common/utils.ts line 42), as a character
list. -/
def PUZZLE_RESOURCE_PATH : List Char := "puzzlebox://puzzle/".data

/-- Function `getPuzzleResourceUri` (src/common/utils.ts lines 43-45): template
concatenation of the resource path and the id. -/
def getPuzzleResourceUri (puzzleId : List Char) : List Char :=
  PUZZLE_RESOURCE_PATH ++ puzzleId

/-- JS `String.prototype.split` with a non-empty separator, on character
lists: scan left to right; whenever the separator matches at the current
position (i.e. starts the remaining input), emit the field accumulated since
the previous match (`acc`, kept reversed) and resume after the separator; at
the end emit the remaining field. An empty separator never matches here (the
source only ever splits on the non-empty `PUZZLE_RESOURCE_PATH`). -/
def jsSplitAux (sep : List Char) (acc : List Char) :
    List Char → List (List Char)
  | [] => [acc.reverse]
  | c :: rest =>
    if sep <+: (c :: rest) ∧ 0 < sep.length then
      acc.reverse :: jsSplitAux sep [] (List.drop (sep.length - 1) rest)
    else
      jsSplitAux sep (c :: acc) rest
termination_by s => s.length
decreasing_by
  · simp only [List.length_drop, List.length_cons]
    omega
  · simp

/-- JS `uri.split(sep)`. -/
def jsSplit (sep s : List Char) : List (List Char) :=
  jsSplitAux sep [] s

/-- The `ReadResourceRequestSchema` handler's id extraction
(src/puzzlebox.ts line 222): `uri.split(PUZZLE_RESOURCE_PATH)[1]`; the JS
index access yields `undefined` (`none`) when the split has fewer than two
fields. -/
def extractPuzzleId (uri : List Char) : Option (List Char) :=
  (jsSplit PUZZLE_RESOURCE_PATH uri).get? 1

/-- Behavior of the transport collaborator for one subscriber token during
notification fan-out (src/puzzlebox.ts lines 131-147): `absent` models
`transports.has(subscriber)` being false (connection gone), `ok` a
`transport.send` that resolves, `failing` a `transport.send` that rejects. -/
inductive TransportBehavior where
  | ok
  | failing
  | absent
deriving DecidableEq, Repr

/-- Observable outcome of the notification loop: the tokens whose `send`
resolved (in visit order), the contents of the subscriber set after the loop
(lazy pruning applied), and whether a rejected `send` escaped the loop. -/
structure NotifyOutcome where
  delivered : List String
  remaining : List String
  threw : Bool
deriving DecidableEq, Repr

/-- The `for (const subscriber of subscribers)` loop of the
`perform_action_on_puzzle` case (src/puzzlebox.ts lines 131-147), run after a
successful action when the URI has a subscriber set: a token with a live
transport is sent the update notification (a rejected `send` propagates out
of the loop as an exception); a token without a transport is deleted from
the subscriber set and iteration continues. `toVisit` is the iteration
sequence (the set's insertion order), `setNow` the set contents, `delivered`
the reversed log of successful sends so far. -/
def notifyLoop (transports : String → TransportBehavior) :
    List String → List String → List String → NotifyOutcome
  | [], setNow, delivered =>
    { delivered := delivered.reverse, remaining := setNow, threw := false }
  | sub :: rest, setNow, delivered =>
    match transports sub with
    | .ok => notifyLoop transports rest setNow (sub :: delivered)
    | .failing =>
      { delivered := delivered.reverse, remaining := setNow, threw := true }
    | .absent => notifyLoop transports rest (setNow.erase sub) delivered

/-- The notification fan-out for a committed transition, over the puzzle
URI's subscriber set (src/puzzlebox.ts lines 129-148). -/
def notifySubscribers (transports : String → TransportBehavior)
    (subscribers : List String) : NotifyOutcome :=
  notifyLoop transports subscribers subscribers []

/-- What the `CallToolRequestSchema` handler returns to the caller of
`perform_action_on_puzzle` (src/puzzlebox.ts lines 150-152 and 164-170):
when the loop finishes, the serialized action result; when a rejected `send`
escapes, the catch block logs and returns the empty object, dropping the
action result. -/
def handlerReturnsActionResult (o : NotifyOutcome) : Bool :=
  !o.threw

/-- Function `getTestPuzzleConfig` (src/common/utils.ts lines 7-40): the repository's
own example configuration, verbatim — including the stray `"Close:"` action
key in state `Opened` and the guard names on `Closed` and `Opened`. -/
def getTestPuzzleConfig : PuzzleConfig :=
  { initialState := "Closed",
    states :=
      [("Closed",
        { name := "Closed",
          actions := some
            [("Open", { name := "Open", targetState := "Opened" }),
             ("Lock", { name := "Lock", targetState := "Locked" })],
          exitGuard := some "Closed/guard/exit" }),
       ("Opened",
        { name := "Opened",
          actions := some
            [("Close:", { name := "Close", targetState := "Closed" })],
          enterGuard := some "Closed/guard/enter" }),
       ("Locked",
        { name := "Locked",
          actions := some
            [("Unlock", { name := "Unlock", targetState := "Closed" }),
             ("KickIn", { name := "KickIn", targetState := "KickedIn" })] }),
       ("KickedIn", { name := "KickedIn" })] }

/-- A schema-valid configuration whose single state is stored under record
key `"A"` but carries the embedded name `"B"` (puzzleSchema requires `name`
to be a string, not to match the record key). -/
def mismatchedNameConfig : PuzzleConfig :=
  { initialState := "A", states := [("A", { name := "B" })] }

/-- A schema-valid configuration with an action whose `targetState` (`"B"`)
is not a key of `states` (puzzleSchema does not check the reference). -/
def danglingTargetConfig : PuzzleConfig :=
  { initialState := "A",
    states :=
      [("A",
        { name := "A",
          actions := some [("go", { name := "go", targetState := "B" })] })] }

/-- A schema-valid configuration whose action is stored under key `"Open"`
while the embedded action value is named `"Zap"`. -/
def divergentActionConfig : PuzzleConfig :=
  { initialState := "A",
    states :=
      [("A",
        { name := "A",
          actions := some
            [("Open", { name := "Zap", targetState := "Done" })] }),
       ("Done", { name := "Done" })] }

/-- Transport collaborator where token `"b"` has a live transport whose
`send` resolves and every other token has a live transport whose `send`
rejects. -/
def sendFailureTransports : String → TransportBehavior :=
  fun s => if s == "b" then .ok else .failing

/-- Transport collaborator where token `"b"` has a live transport and every
other token has none (connection gone). -/
def lookupFailureTransports : String → TransportBehavior :=
  fun s => if s == "b" then .ok else .absent

/-! ### Lemmas about the JS Map model -/

theorem mapHas_iff_mem_keys {α : Type u} (m : List (String × α)) (k : String) :
    mapHas m k = true ↔ k ∈ mapKeys m := by
  induction m with
  | nil => simp [mapHas, mapGet, mapKeys]
  | cons e rest ih =>
    simp only [mapKeys, List.map_cons, List.mem_cons]
    by_cases h : e.1 = k
    · simp [mapHas, mapGet, h]
    · have hbeq : (e.1 == k) = false := by simp [h]
      have ih' : (mapGet rest k).isSome = true ↔ k ∈ List.map Prod.fst rest := ih
      simp only [mapHas, mapGet, hbeq]
      simp only [Bool.false_eq_true, if_false]
      rw [ih']
      constructor
      · exact Or.inr
      · intro hs
        rcases hs with hs | hs
        · exact absurd hs.symm h
        · exact hs

theorem mapGet_mem {α : Type u} {m : List (String × α)} {k : String} {v : α}
    (h : mapGet m k = some v) : (k, v) ∈ m := by
  induction m with
  | nil => simp [mapGet] at h
  | cons e rest ih =>
    by_cases he : e.1 = k
    · have hbeq : (e.1 == k) = true := by simp [he]
      simp only [mapGet, hbeq, if_true, Option.some_inj] at h
      rcases e with ⟨a, b⟩
      simp only at he h
      rw [List.mem_cons]
      left
      rw [← he, ← h]
    · have hbeq : (e.1 == k) = false := by simp [he]
      simp only [mapGet, hbeq, Bool.false_eq_true, if_false] at h
      exact List.mem_cons_of_mem _ (ih h)

theorem mapGet_eq_some_of_has {α : Type u} {m : List (String × α)} {k : String}
    (h : mapHas m k = true) : ∃ v, mapGet m k = some v := by
  rw [mapHas, Option.isSome_iff_exists] at h
  exact h

theorem mapGet_mapSet_self {α : Type u} (m : List (String × α)) (k : String)
    (v : α) : mapGet (mapSet m k v) k = some v := by
  induction m with
  | nil => simp [mapSet, mapGet]
  | cons e rest ih =>
    by_cases he : e.1 = k
    · have hbeq : (e.1 == k) = true := by simp [he]
      simp [mapSet, mapGet, hbeq]
    · have hbeq : (e.1 == k) = false := by simp [he]
      simp only [mapSet, hbeq, if_false, mapGet]
      rw [if_neg (by simp [he])]
      exact ih

theorem mapGet_mapSet_ne {α : Type u} (m : List (String × α)) (k k' : String)
    (v : α) (hne : k' ≠ k) : mapGet (mapSet m k v) k' = mapGet m k' := by
  have hkk' : (k == k') = false := by
    simp only [beq_eq_false_iff_ne, ne_eq]
    intro hc; exact hne hc.symm
  induction m with
  | nil => simp [mapSet, mapGet, hkk']
  | cons e rest ih =>
    by_cases he : e.1 = k
    · have hbeq : (e.1 == k) = true := by simp [he]
      have hbeq' : (e.1 == k') = false := by
        simp only [beq_eq_false_iff_ne, ne_eq]
        intro hc; exact hne (by rw [← hc, he])
      simp [mapSet, mapGet, hbeq, hbeq', hkk']
    · have hbeq : (e.1 == k) = false := by simp [he]
      simp only [mapSet, hbeq, if_false, mapGet]
      by_cases he' : e.1 = k'
      · simp [he']
      · rw [if_neg (by simp [he']), if_neg (by simp [he'])]
        exact ih

theorem mem_keys_mapSet_self {α : Type u} (m : List (String × α)) (k : String)
    (v : α) : k ∈ mapKeys (mapSet m k v) := by
  have hs : (mapGet (mapSet m k v) k).isSome = true := by
    rw [mapGet_mapSet_self]; rfl
  exact (mapHas_iff_mem_keys _ _).mp hs

theorem mem_keys_mapSet_of_mem {α : Type u} (m : List (String × α))
    (k k' : String) (v : α) (h : k' ∈ mapKeys m) :
    k' ∈ mapKeys (mapSet m k v) := by
  by_cases hk : k' = k
  · subst hk; exact mem_keys_mapSet_self m k' v
  · have hs : (mapGet (mapSet m k v) k').isSome = true := by
      rw [mapGet_mapSet_ne m k k' v hk]
      rcases mapGet_eq_some_of_has ((mapHas_iff_mem_keys m k').mpr h) with ⟨w, hw⟩
      rw [hw]; rfl
    exact (mapHas_iff_mem_keys _ _).mp hs

theorem mem_mapSet {α : Type u} {m : List (String × α)} {k : String} {v : α}
    {e : String × α} (h : e ∈ mapSet m k v) : e ∈ m ∨ e = (k, v) := by
  induction m with
  | nil =>
    simp only [mapSet, List.mem_singleton] at h
    exact Or.inr h
  | cons e0 rest ih =>
    by_cases he : e0.1 = k
    · have hbeq : (e0.1 == k) = true := by simp [he]
      simp only [mapSet, hbeq, if_true, List.mem_cons] at h
      rcases h with h1 | h1
      · exact Or.inr h1
      · exact Or.inl (List.mem_cons_of_mem _ h1)
    · have hbeq : (e0.1 == k) = false := by simp [he]
      simp only [mapSet, hbeq, Bool.false_eq_true, if_false, List.mem_cons] at h
      rcases h with h1 | h1
      · exact Or.inl (h1 ▸ List.mem_cons_self e0 rest)
      · rcases ih h1 with h2 | h2
        · exact Or.inl (List.mem_cons_of_mem _ h2)
        · exact Or.inr h2

theorem mapHas_eq_false_of_not_mem_keys {α : Type u} {m : List (String × α)}
    {k : String} (h : k ∉ mapKeys m) : mapHas m k = false := by
  cases hh : mapHas m k with
  | false => rfl
  | true => exact absurd ((mapHas_iff_mem_keys m k).mp hh) h

theorem mem_keys_of_mapGet_eq_some {α : Type u} {m : List (String × α)}
    {k : String} {v : α} (h : mapGet m k = some v) : k ∈ mapKeys m := by
  have hs : mapHas m k = true := by rw [mapHas, h]; rfl
  exact (mapHas_iff_mem_keys m k).mp hs

/-! ### Lemmas about Puzzle construction -/

theorem addState_states (p : Puzzle) (s : State) (b : Bool) :
    (p.addState s b).states =
      mapSet p.states s.name
        { s with actions := some ((s.actions.getD []).foldl
            (fun m e => mapSet m e.1 e.2) []) } := by
  unfold Puzzle.addState
  cases b <;> rfl

theorem addState_currentState_true (p : Puzzle) (s : State) :
    (p.addState s true).currentState = some s.name := rfl

theorem addState_currentState_false (p : Puzzle) (s : State) :
    (p.addState s false).currentState = p.currentState := rfl

/-- Every entry of a puzzle's state map is keyed by the stored state's
embedded name: `addState` always inserts under `state.name`. -/
theorem fold_keyedByName (init : String) (es : List (String × State))
    (p : Puzzle) (hp : ∀ e ∈ p.states, e.1 = e.2.name) :
    ∀ e ∈ (es.foldl (fun q e => q.addState e.2 (e.1 == init)) p).states,
      e.1 = e.2.name := by
  induction es generalizing p with
  | nil => simpa using hp
  | cons a rest ih =>
    rw [List.foldl_cons]
    apply ih
    intro e he
    rw [addState_states] at he
    rcases mem_mapSet he with h | h
    · exact hp e h
    · rw [h]

/-- Tracking `currentState` through `initializePuzzle`'s fold: once some
entry whose record key equals `initialState` is added (with its embedded
name equal to that key), `currentState` is `initialState` and the state map
has that key, and later entries preserve both. -/
theorem fold_currentState (init : String) (es : List (String × State))
    (p : Puzzle) (hnames : ∀ e ∈ es, e.1 = init → e.2.name = init)
    (hstart : (p.currentState = some init ∧ init ∈ mapKeys p.states) ∨
      (∃ e ∈ es, e.1 = init)) :
    (es.foldl (fun q e => q.addState e.2 (e.1 == init)) p).currentState =
        some init ∧
      init ∈ mapKeys
        (es.foldl (fun q e => q.addState e.2 (e.1 == init)) p).states := by
  induction es generalizing p with
  | nil =>
    rcases hstart with h | ⟨e, he, _⟩
    · simpa using h
    · exact absurd he (List.not_mem_nil e)
  | cons a rest ih =>
    rw [List.foldl_cons]
    by_cases ha : a.1 = init
    · have hn : a.2.name = init := hnames a (List.mem_cons_self _ _) ha
      have hb : (a.1 == init) = true := by simp [ha]
      rw [hb]
      apply ih
      · intro e he hei
        exact hnames e (List.mem_cons_of_mem _ he) hei
      · left
        refine ⟨by rw [addState_currentState_true, hn], ?_⟩
        rw [addState_states, ← hn]
        exact mem_keys_mapSet_self _ _ _
    · have hb : (a.1 == init) = false := by simp [ha]
      rw [hb]
      apply ih
      · intro e he hei
        exact hnames e (List.mem_cons_of_mem _ he) hei
      · rcases hstart with ⟨hc, hk⟩ | ⟨e, he, hei⟩
        · left
          refine ⟨by rw [addState_currentState_false]; exact hc, ?_⟩
          rw [addState_states]
          exact mem_keys_mapSet_of_mem _ _ _ _ hk
        · rcases List.mem_cons.mp he with rfl | he'
          · exact absurd hei ha
          · exact Or.inr ⟨e, he', hei⟩

theorem mkPuzzle_currentState_eq (id : String) (D : PuzzleConfig) :
    (mkPuzzle id D).currentState =
      (D.states.foldl (fun q e => q.addState e.2 (e.1 == D.initialState))
        ({ id := id } : Puzzle)).currentState := rfl

theorem mkPuzzle_states_eq (id : String) (D : PuzzleConfig) :
    (mkPuzzle id D).states =
      (D.states.foldl (fun q e => q.addState e.2 (e.1 == D.initialState))
        ({ id := id } : Puzzle)).states := rfl

/-- The state map of a freshly constructed puzzle is keyed by embedded state
names. -/
theorem mkPuzzle_keyedByName (id : String) (D : PuzzleConfig) :
    ∀ e ∈ (mkPuzzle id D).states, e.1 = e.2.name := by
  rw [mkPuzzle_states_eq]
  exact fold_keyedByName D.initialState D.states { id := id } (by simp)

theorem getCurrentState_of_currentState_some {p : Puzzle} {c : String}
    (h : p.currentState = some c) : p.getCurrentState = mapGet p.states c := by
  unfold Puzzle.getCurrentState
  rw [h]

theorem getCurrentState_mapGet {p : Puzzle} {cs : State}
    (h : p.getCurrentState = some cs) : ∃ k, mapGet p.states k = some cs := by
  unfold Puzzle.getCurrentState at h
  cases hc : p.currentState with
  | some c => rw [hc] at h; exact ⟨c, h⟩
  | none =>
    rw [hc] at h
    cases hi : p.initialState with
    | none => rw [hi] at h; cases h
    | some i => rw [hi] at h; exact ⟨i, h⟩

theorem getActions_eq {p : Puzzle} {cs : State}
    (h : mapGet p.states cs.name = some cs) :
    p.getActions cs.name =
      match cs.actions with
      | some acts => mapKeys acts
      | none => [] := by
  unfold Puzzle.getActions
  rw [h]

theorem performAction_none (a : String) {p : Puzzle}
    (h : p.getCurrentState = none) : p.performAction a = (false, p) := by
  unfold Puzzle.performAction
  rw [h]

theorem performAction_some_eq (a : String) {p : Puzzle} {cs : State}
    (h : p.getCurrentState = some cs) :
    p.performAction a =
      match cs.actions with
      | none => (false, p)
      | some acts =>
        if mapHas acts a then
          (true,
           { p with currentState := (mapGet acts a).map Action.targetState })
        else (false, p) := by
  unfold Puzzle.performAction
  rw [h]

theorem performAction_actions_none (a : String) {p : Puzzle} {cs : State}
    (h : p.getCurrentState = some cs) (hacts : cs.actions = none) :
    p.performAction a = (false, p) := by
  rw [performAction_some_eq a h, hacts]

theorem performAction_actions_some (a : String) {p : Puzzle} {cs : State}
    {acts : List (String × Action)} (h : p.getCurrentState = some cs)
    (hacts : cs.actions = some acts) :
    p.performAction a =
      if mapHas acts a then
        (true,
         { p with currentState := (mapGet acts a).map Action.targetState })
      else (false, p) := by
  rw [performAction_some_eq a h, hacts]

/-! ### Claim theorems -/

/-- C1: the claim says `performAction` awaits the guard oracle and aborts on
rejection/failure/timeout with the current state unchanged. The code never
consults any oracle (the guard checks are TODO comments at
src/common/Puzzle.ts lines 114-115, contradicting the method's own doc
comment "can be canceled by exit guard / enter guard"): on the repository's
own test configuration, state `Closed` declares an exit guard and target
state `Opened` declares an enter guard, yet `performAction "Open"` commits
the transition and reports success unconditionally — the embedding takes no
oracle argument because the code gives any oracle no opportunity to reject. -/
theorem performAction_ignores_guards :
    ((mkPuzzle "p1" getTestPuzzleConfig).getCurrentState.bind State.exitGuard =
      some "Closed/guard/exit") ∧
    (((mkPuzzle "p1" getTestPuzzleConfig).getState "Opened").bind
      State.enterGuard = some "Closed/guard/enter") ∧
    ((mkPuzzle "p1" getTestPuzzleConfig).performAction "Open" =
      (true,
       { mkPuzzle "p1" getTestPuzzleConfig with currentState := some "Opened" })) := by
  decide

/-- C2: for every puzzle (with its state map keyed by embedded state names,
the representation invariant every `addState`/`states.set` call maintains)
and every action name not listed by `getAvailableActions` of the current
state, `performAction` returns failure and leaves the puzzle — in particular
`getCurrentState()` — unchanged. -/
theorem performAction_unavailable (p : Puzzle) (a : String)
    (hwf : ∀ e ∈ p.states, e.1 = e.2.name)
    (h : ∀ cs, p.getCurrentState = some cs → a ∉ p.getActions cs.name) :
    p.performAction a = (false, p) ∧
    (p.performAction a).2.getCurrentState = p.getCurrentState := by
  have hmain : p.performAction a = (false, p) := by
    cases hcs : p.getCurrentState with
    | none => exact performAction_none a hcs
    | some cs =>
      rcases getCurrentState_mapGet hcs with ⟨k, hk⟩
      have hkname : k = cs.name := hwf _ (mapGet_mem hk)
      have hget : mapGet p.states cs.name = some cs := by
        rw [← hkname]; exact hk
      have hav := h cs hcs
      rw [getActions_eq hget] at hav
      cases hacts : cs.actions with
      | none => exact performAction_actions_none a hcs hacts
      | some acts =>
        rw [hacts] at hav
        have hav' : a ∉ mapKeys acts := hav
        have hnh : ¬ mapHas acts a = true := by
          intro hha
          exact absurd ((mapHas_iff_mem_keys _ _).mp hha) hav'
        rw [performAction_actions_some a hcs hacts, if_neg hnh]
  exact ⟨hmain, by rw [hmain]⟩

/-- Witness for C2: `performAction "Bogus"` on a fresh test puzzle fails and
changes nothing. -/
theorem performAction_unavailable_witness :
    (mkPuzzle "w2" getTestPuzzleConfig).performAction "Bogus" =
      (false, mkPuzzle "w2" getTestPuzzleConfig) :=
  (performAction_unavailable (mkPuzzle "w2" getTestPuzzleConfig) "Bogus"
    (by decide)
    (by
      intro cs hcs
      rw [show (mkPuzzle "w2" getTestPuzzleConfig).getCurrentState =
          some ⟨"Closed", none, some "Closed/guard/exit",
            some [("Open", ⟨"Open", "Opened"⟩), ("Lock", ⟨"Lock", "Locked"⟩)]⟩
        from by decide] at hcs
      injection hcs with hcs'
      subst hcs'
      decide)).1

/-- C3 (amended): for a definition `D` with `initialState ∈ keys(states)`, a
freshly constructed puzzle's `getCurrentState().name` equals `D.initialState`
provided the state entry stored under key `D.initialState` carries that same
embedded `name` — `addState` keys the state map by the embedded `name` field
and sets `currentState` to it, so when the embedded name diverges from the
record key the claim fails (see the counterexample). -/
theorem freshPuzzle_initial_currentState (D : PuzzleConfig) (id : String)
    (hmem : D.initialState ∈ mapKeys D.states)
    (hname : ∀ e ∈ D.states, e.1 = D.initialState → e.2.name = D.initialState) :
    (mkPuzzle id D).getCurrentState.map State.name = some D.initialState := by
  have hstart : ∃ e ∈ D.states, e.1 = D.initialState := by
    rcases List.mem_map.mp hmem with ⟨e, he, hfst⟩
    exact ⟨e, he, hfst⟩
  have h2 := fold_currentState D.initialState D.states ({ id := id } : Puzzle)
    hname (Or.inr hstart)
  have hcur : (mkPuzzle id D).currentState = some D.initialState := by
    rw [mkPuzzle_currentState_eq]; exact h2.1
  have hkeys : D.initialState ∈ mapKeys (mkPuzzle id D).states := by
    rw [mkPuzzle_states_eq]; exact h2.2
  rcases mapGet_eq_some_of_has ((mapHas_iff_mem_keys _ _).mpr hkeys) with ⟨s, hs⟩
  have hsname : D.initialState = s.name :=
    mkPuzzle_keyedByName id D _ (mapGet_mem hs)
  rw [getCurrentState_of_currentState_some hcur, hs]
  show some s.name = some D.initialState
  rw [← hsname]

/-- Witness for C3: on the repository's test configuration (whose state
names match their record keys) the fresh puzzle's current state is
`Closed`. -/
theorem freshPuzzle_initial_currentState_witness :
    (mkPuzzle "w3" getTestPuzzleConfig).getCurrentState.map State.name =
      some getTestPuzzleConfig.initialState :=
  freshPuzzle_initial_currentState getTestPuzzleConfig "w3" (by decide)
    (by decide)

/-- Counterexample for C3 as stated: `mismatchedNameConfig` has
`initialState = "A" ∈ keys(states)`, yet the fresh puzzle's
`getCurrentState().name` is `"B"` (the embedded name), not `"A"`. -/
theorem freshPuzzle_initial_currentState_cx :
    mismatchedNameConfig.initialState ∈ mapKeys mismatchedNameConfig.states ∧
    (mkPuzzle "p3" mismatchedNameConfig).getCurrentState.map State.name ≠
      some mismatchedNameConfig.initialState := by
  decide

/-- C6 (amended): an unparsable config string makes `addPuzzle` return
failure carrying the `JSON.parse` error message and adds nothing; a config
that parses but fails `puzzleSchema` validation makes `addPuzzle` return a
bare failure with NO error detail (the zod error is silently discarded) and
adds nothing. -/
theorem addPuzzle_invalid_config :
    (∀ (msg freshId : String) (st : PuzzleMap),
      addPuzzle (ParsedConfig.unparsable msg) freshId st =
        ({ success := false, error := some msg, puzzleId := none }, st)) ∧
    (∀ (freshId : String) (st : PuzzleMap),
      addPuzzle ParsedConfig.schemaInvalid freshId st =
        ({ success := false, error := none, puzzleId := none }, st)) :=
  ⟨fun _ _ _ => rfl, fun _ _ => rfl⟩

/-- Counterexample for C6 as stated: a schema-invalid input (concretely, the
JSON string of an empty object, which parses but lacks `initialState`)
yields a failure result whose `error` field is `undefined` — the cause is
silently swallowed, though no puzzle is added. -/
theorem addPuzzle_invalid_config_cx :
    (addPuzzle ParsedConfig.schemaInvalid "puzzle-x" []).1.success = false ∧
    (addPuzzle ParsedConfig.schemaInvalid "puzzle-x" []).1.error = none ∧
    (addPuzzle ParsedConfig.schemaInvalid "puzzle-x" []).2 = [] := by
  decide

/-- C8: `updatePuzzle` reports exactly whether the id was already present;
when absent the registry is unchanged, when present the stored instance
under that id becomes the given puzzle and every other id's lookup is
untouched. -/
theorem updatePuzzle_spec (pz : Puzzle) (st : PuzzleMap) :
    ((PuzzleStore.updatePuzzle pz st).1 = mapHas st pz.id) ∧
    (mapHas st pz.id = false → (PuzzleStore.updatePuzzle pz st).2 = st) ∧
    (mapHas st pz.id = true →
      PuzzleStore.getPuzzle pz.id (PuzzleStore.updatePuzzle pz st).2 =
        some pz) ∧
    (∀ k, k ≠ pz.id →
      PuzzleStore.getPuzzle k (PuzzleStore.updatePuzzle pz st).2 =
        PuzzleStore.getPuzzle k st) := by
  unfold PuzzleStore.updatePuzzle PuzzleStore.getPuzzle
  by_cases h : mapHas st pz.id = true
  · rw [if_pos h]
    refine ⟨by rw [h], ?_, ?_, ?_⟩
    · intro hc; rw [h] at hc; exact Bool.noConfusion hc
    · intro _; exact mapGet_mapSet_self st pz.id pz
    · intro k hk; exact mapGet_mapSet_ne st pz.id k pz hk
  · have hf : mapHas st pz.id = false := by
      cases hh : mapHas st pz.id with
      | false => rfl
      | true => exact absurd hh h
    rw [if_neg h]
    refine ⟨by rw [hf], fun _ => rfl, ?_, fun _ _ => rfl⟩
    intro hc
    rw [hf] at hc
    exact Bool.noConfusion hc

/-- Witness for C8: updating an absent id leaves an empty registry empty;
updating a present id replaces the stored instance. -/
theorem updatePuzzle_spec_witness :
    (PuzzleStore.updatePuzzle ⟨"w8", [], none, none⟩ []).2 = ([] : PuzzleMap) ∧
    PuzzleStore.getPuzzle "w8"
      (PuzzleStore.updatePuzzle ⟨"w8", [], none, none⟩
        [("w8", ⟨"w8", [], none, some "X"⟩)]).2 =
      some ⟨"w8", [], none, none⟩ :=
  ⟨(updatePuzzle_spec ⟨"w8", [], none, none⟩ []).2.1 (by decide),
   (updatePuzzle_spec ⟨"w8", [], none, none⟩
     [("w8", ⟨"w8", [], none, some "X"⟩)]).2.2.1 (by decide)⟩

/-- C9: on a schema-valid definition whose action target `"B"` is not a key
of `states`, `performAction "go"` reports success, afterwards
`getCurrentState()` is `undefined`, and the puzzle snapshot has `undefined`
`currentState` and `availableActions`: `performAction` does not preserve
`currentState ∈ keys(states)`. -/
theorem performAction_dangling_target :
    "B" ∉ mapKeys danglingTargetConfig.states ∧
    ((mkPuzzle "p9" danglingTargetConfig).performAction "go").1 = true ∧
    ((mkPuzzle "p9" danglingTargetConfig).performAction "go").2.getCurrentState
      = none ∧
    getPuzzleSnapshot "p9"
      [("p9", ((mkPuzzle "p9" danglingTargetConfig).performAction "go").2)] =
      { currentState := none, availableActions := none } := by
  decide

/-- C10: `performAction` — succeeding or failing — changes at most the
`currentState` field: `id`, `initialState` and the whole state table
(hence the set of state names and every state's action map) are unchanged. -/
theorem performAction_frame (p : Puzzle) (a : String) :
    (p.performAction a).2.id = p.id ∧
    (p.performAction a).2.initialState = p.initialState ∧
    (p.performAction a).2.states = p.states := by
  cases hcs : p.getCurrentState with
  | none =>
    rw [performAction_none a hcs]
    exact ⟨rfl, rfl, rfl⟩
  | some cs =>
    cases hacts : cs.actions with
    | none =>
      rw [performAction_actions_none a hcs hacts]
      exact ⟨rfl, rfl, rfl⟩
    | some acts =>
      rw [performAction_actions_some a hcs hacts]
      by_cases hp : mapHas acts a = true
      · rw [if_pos hp]
        exact ⟨rfl, rfl, rfl⟩
      · rw [if_neg hp]
        exact ⟨rfl, rfl, rfl⟩

/-- C7: the action-map key is authoritative when it diverges from the name
embedded in the action value: `getAvailableActions` lists the key and not
the embedded name, `performAction` under the key succeeds and moves to that
entry's `targetState`, and `performAction` under the embedded name fails. -/
theorem actionKey_authoritative (p : Puzzle) (cs : State)
    (acts : List (String × Action)) (k : String) (act : Action)
    (hwf : ∀ e ∈ p.states, e.1 = e.2.name)
    (hcs : p.getCurrentState = some cs)
    (hacts : cs.actions = some acts)
    (hget : mapGet acts k = some act)
    (hdiv : act.name ∉ mapKeys acts) :
    k ∈ p.getActions cs.name ∧
    act.name ∉ p.getActions cs.name ∧
    p.performAction k = (true, { p with currentState := some act.targetState }) ∧
    p.performAction act.name = (false, p) := by
  rcases getCurrentState_mapGet hcs with ⟨k0, hk0⟩
  have hk0name : k0 = cs.name := hwf _ (mapGet_mem hk0)
  have hgetcs : mapGet p.states cs.name = some cs := by
    rw [← hk0name]; exact hk0
  have hGA : p.getActions cs.name = mapKeys acts := by
    rw [getActions_eq hgetcs, hacts]
  refine ⟨?_, ?_, ?_, ?_⟩
  · rw [hGA]; exact mem_keys_of_mapGet_eq_some hget
  · rw [hGA]; exact hdiv
  · have hhas : mapHas acts k = true := by rw [mapHas, hget]; rfl
    rw [performAction_actions_some k hcs hacts, if_pos hhas, hget]
    rfl
  · have hnh : ¬ mapHas acts act.name = true := by
      rw [mapHas_eq_false_of_not_mem_keys hdiv]
      exact Bool.noConfusion
    rw [performAction_actions_some act.name hcs hacts, if_neg hnh]

/-- Witness for C7: the divergent entry (key `"Open"`, embedded name
`"Zap"`) is listed and resolved by its key. -/
theorem actionKey_authoritative_witness :
    "Open" ∈ (mkPuzzle "w7" divergentActionConfig).getActions "A" ∧
    "Zap" ∉ (mkPuzzle "w7" divergentActionConfig).getActions "A" ∧
    (mkPuzzle "w7" divergentActionConfig).performAction "Open" =
      (true,
       { mkPuzzle "w7" divergentActionConfig with currentState := some "Done" }) := by
  have h := actionKey_authoritative (mkPuzzle "w7" divergentActionConfig)
    ⟨"A", none, none, some [("Open", ⟨"Zap", "Done"⟩)]⟩
    [("Open", ⟨"Zap", "Done"⟩)] "Open" ⟨"Zap", "Done"⟩
    (by decide) (by decide) (by decide) (by decide) (by decide)
  exact ⟨h.1, h.2.1, h.2.2.1⟩

/-! ### Lemmas about the URI split -/

/-- When the separator occurs nowhere in `s`, the scan emits a single field:
the pending accumulator followed by all of `s`. -/
theorem jsSplitAux_no_occurrence (sep : List Char) :
    ∀ (s acc : List Char), ¬ sep <:+: s →
      jsSplitAux sep acc s = [acc.reverse ++ s] := by
  intro s
  induction s with
  | nil =>
    intro acc h
    rw [jsSplitAux.eq_1]
    simp
  | cons c rest ih =>
    intro acc h
    have hnp : ¬ (sep <+: (c :: rest) ∧ 0 < sep.length) := by
      rintro ⟨hp, _⟩
      rcases hp with ⟨t, ht⟩
      exact h ⟨[], t, by simpa using ht⟩
    rw [jsSplitAux.eq_2, if_neg hnp]
    rw [ih (c :: acc) (fun hr => h (List.infix_cons hr))]
    simp

/-- A (non-empty) separator sitting at the front of the input closes the
current field and the scan resumes right after it. -/
theorem jsSplitAux_sep_append (sep : List Char) (hne : sep ≠ [])
    (s : List Char) :
    jsSplitAux sep [] (sep ++ s) = [] :: jsSplitAux sep [] s := by
  rcases List.exists_cons_of_ne_nil hne with ⟨c, sep', rfl⟩
  have hp : (c :: sep') <+: (c :: (sep' ++ s)) :=
    List.prefix_append (c :: sep') s
  have hcond : (c :: sep') <+: (c :: (sep' ++ s)) ∧
      0 < (c :: sep').length := ⟨hp, by simp⟩
  rw [show (c :: sep') ++ s = c :: (sep' ++ s) from rfl]
  rw [jsSplitAux.eq_2, if_pos hcond]
  have hdrop : List.drop ((c :: sep').length - 1) (sep' ++ s) = s := by
    simp only [List.length_cons, Nat.add_sub_cancel]
    exact List.drop_left sep' s
  rw [hdrop]
  simp

/-- C4 (amended): the derived resource URI round-trips back to the original
id for every id that does not itself contain the resource-path prefix as a
substring — in particular for every id the registry ever creates
(`createId` produces `puzzle-` followed by base-36 digits, which contain no
`:` or `/`). When the id does contain the prefix, the handler's
`uri.split(PUZZLE_RESOURCE_PATH)[1]` truncates it (see the
counterexample). -/
theorem extractId_roundTrip (puzzleId : List Char)
    (h : ¬ PUZZLE_RESOURCE_PATH <:+: puzzleId) :
    extractPuzzleId (getPuzzleResourceUri puzzleId) = some puzzleId := by
  unfold extractPuzzleId getPuzzleResourceUri jsSplit
  rw [jsSplitAux_sep_append PUZZLE_RESOURCE_PATH (by decide) puzzleId]
  rw [jsSplitAux_no_occurrence PUZZLE_RESOURCE_PATH puzzleId [] h]
  rfl

/-- Witness for C4: a registry-shaped id round-trips. -/
theorem extractId_roundTrip_witness :
    extractPuzzleId (getPuzzleResourceUri "puzzle-a1b2c3".data) =
      some "puzzle-a1b2c3".data :=
  extractId_roundTrip "puzzle-a1b2c3".data (by decide)

/-- Counterexample for C4 as stated: for the id that is itself the resource
path, `extractId(deriveURI(id))` returns the empty string, not the id. -/
theorem extractId_roundTrip_cx :
    extractPuzzleId (getPuzzleResourceUri PUZZLE_RESOURCE_PATH) = some [] ∧
    extractPuzzleId (getPuzzleResourceUri PUZZLE_RESOURCE_PATH) ≠
      some PUZZLE_RESOURCE_PATH := by
  have h2 : jsSplitAux PUZZLE_RESOURCE_PATH [] PUZZLE_RESOURCE_PATH =
      [[], []] := by
    have h3 := jsSplitAux_sep_append PUZZLE_RESOURCE_PATH (by decide) []
    rw [List.append_nil] at h3
    rw [h3, jsSplitAux.eq_1]
    rfl
  have h1 : extractPuzzleId (getPuzzleResourceUri PUZZLE_RESOURCE_PATH) =
      some [] := by
    unfold extractPuzzleId getPuzzleResourceUri jsSplit
    rw [jsSplitAux_sep_append PUZZLE_RESOURCE_PATH (by decide)
      PUZZLE_RESOURCE_PATH]
    rw [h2]
    rfl
  refine ⟨h1, ?_⟩
  rw [h1]
  intro hc
  injection hc with hc'
  exact absurd hc'.symm (by decide)

/-! ### Lemmas about the notification loop -/

/-- When no visited subscriber's `send` rejects, the loop finishes: it
delivers to exactly the tokens with a live transport (in order) and erases
from the subscriber set exactly the visited tokens without one. -/
theorem notifyLoop_no_failing (tr : String → TransportBehavior) :
    ∀ (visit setNow delivered : List String),
    (∀ s ∈ visit, tr s ≠ .failing) →
    notifyLoop tr visit setNow delivered =
      { delivered := delivered.reverse ++ visit.filter (fun s => tr s == .ok),
        remaining := visit.foldl
          (fun st s => if tr s == .absent then st.erase s else st) setNow,
        threw := false } := by
  intro visit
  induction visit with
  | nil =>
    intro setNow delivered _
    simp [notifyLoop]
  | cons s rest ih =>
    intro setNow delivered h
    cases htr : tr s with
    | ok =>
      have h1 : notifyLoop tr (s :: rest) setNow delivered =
          notifyLoop tr rest setNow (s :: delivered) := by
        simp only [notifyLoop, htr]
      rw [h1, ih setNow (s :: delivered)
        (fun x hx => h x (List.mem_cons_of_mem _ hx))]
      have hf : (s :: rest).filter (fun x => tr x == .ok) =
          s :: rest.filter (fun x => tr x == .ok) := by
        simp [List.filter_cons, htr]
      have hg : (s :: rest).foldl
          (fun st x => if tr x == .absent then st.erase x else st) setNow =
          rest.foldl
            (fun st x => if tr x == .absent then st.erase x else st) setNow := by
        simp [htr]
      rw [hf, hg]
      simp
    | failing => exact absurd htr (h s (List.mem_cons_self _ _))
    | absent =>
      have h1 : notifyLoop tr (s :: rest) setNow delivered =
          notifyLoop tr rest (setNow.erase s) delivered := by
        simp only [notifyLoop, htr]
      rw [h1, ih (setNow.erase s) delivered
        (fun x hx => h x (List.mem_cons_of_mem _ hx))]
      have hf : (s :: rest).filter (fun x => tr x == .ok) =
          rest.filter (fun x => tr x == .ok) := by
        simp [List.filter_cons, htr]
      have hg : (s :: rest).foldl
          (fun st x => if tr x == .absent then st.erase x else st) setNow =
          rest.foldl
            (fun st x => if tr x == .absent then st.erase x else st)
            (setNow.erase s) := by
        simp [htr]
      rw [hf, hg]

/-- Erasing, along a visit list, every visited element satisfying `P` from a
duplicate-free list is filtering out the elements that satisfy `P` and are
visited. -/
theorem foldl_erase_eq_filter (P : String → Bool) :
    ∀ (visit set : List String), set.Nodup →
    visit.foldl (fun st s => if P s then st.erase s else st) set =
      set.filter (fun x => !(P x && visit.contains x)) := by
  intro visit
  induction visit with
  | nil =>
    intro set _
    rw [List.foldl_nil]
    rw [List.filter_congr (fun x _ => by simp : ∀ x ∈ set,
      (!(P x && ([] : List String).contains x)) = true)]
    rw [List.filter_true]
  | cons s rest ih =>
    intro set hnd
    rw [List.foldl_cons]
    by_cases hP : P s = true
    · rw [if_pos hP]
      rw [ih (set.erase s) (List.Nodup.erase s hnd)]
      rw [List.Nodup.erase_eq_filter hnd s]
      rw [List.filter_filter]
      apply List.filter_congr
      intro x _
      by_cases hxs : x = s
      · subst hxs
        simp [hP, List.contains_cons]
      · simp [List.contains_cons, hxs]
    · have hPf : P s = false := by
        cases hq : P s with
        | false => rfl
        | true => exact absurd hq hP
      rw [if_neg (by rw [hPf]; exact Bool.noConfusion)]
      rw [ih set hnd]
      apply List.filter_congr
      intro x _
      by_cases hxs : x = s
      · subst hxs
        simp [List.contains_cons, hPf]
      · simp [List.contains_cons, hxs]

/-- C5 (amended): when no subscriber's `send` rejects, the loop never throws
(the handler returns the action result), it delivers to every token with a
live transport, and it prunes from the subscriber set exactly the tokens
whose transport lookup fails — a failed LOOKUP is isolated. A rejected
`send`, by contrast, aborts the loop and drops the action result (see the
counterexample). -/
theorem notify_lookup_failure_isolated (tr : String → TransportBehavior)
    (subs : List String) (hnd : subs.Nodup)
    (hnf : ∀ s ∈ subs, tr s ≠ .failing) :
    (notifySubscribers tr subs).threw = false ∧
    handlerReturnsActionResult (notifySubscribers tr subs) = true ∧
    (notifySubscribers tr subs).delivered =
      subs.filter (fun s => tr s == .ok) ∧
    (notifySubscribers tr subs).remaining =
      subs.filter (fun s => !(tr s == .absent)) := by
  unfold notifySubscribers
  rw [notifyLoop_no_failing tr subs subs [] hnf]
  refine ⟨rfl, rfl, by simp, ?_⟩
  show subs.foldl (fun st s => if tr s == .absent then st.erase s else st) subs
    = subs.filter (fun s => !(tr s == .absent))
  rw [foldl_erase_eq_filter (fun s => tr s == .absent) subs subs hnd]
  apply List.filter_congr
  intro x hx
  have hc : subs.contains x = true := List.elem_iff.mpr hx
  rw [hc, Bool.and_true]

/-- Witness for C5: with subscriber `"a"` disconnected (lookup fails) and
`"b"` live, `"b"` still receives the event, `"a"` is pruned, and the handler
returns the action result. -/
theorem notify_lookup_failure_isolated_witness :
    (notifySubscribers lookupFailureTransports ["a", "b"]).delivered = ["b"] ∧
    (notifySubscribers lookupFailureTransports ["a", "b"]).remaining = ["b"] ∧
    handlerReturnsActionResult
      (notifySubscribers lookupFailureTransports ["a", "b"]) = true := by
  have h := notify_lookup_failure_isolated lookupFailureTransports ["a", "b"]
    (by decide) (by decide)
  refine ⟨?_, ?_, h.2.1⟩
  · rw [h.2.2.1]; decide
  · rw [h.2.2.2]; decide

/-- Counterexample for C5 as stated: subscriber `"a"`'s `send` rejects while
`"b"` is live; the loop delivers to nobody else (`"b"` gets nothing), does
not prune `"a"`, and the thrown rejection makes the handler return the empty
object instead of the action result. -/
theorem notify_send_failure_cx :
    sendFailureTransports "a" = TransportBehavior.failing ∧
    sendFailureTransports "b" = TransportBehavior.ok ∧
    (notifySubscribers sendFailureTransports ["a", "b"]).delivered = [] ∧
    (notifySubscribers sendFailureTransports ["a", "b"]).remaining =
      ["a", "b"] ∧
    (notifySubscribers sendFailureTransports ["a", "b"]).threw = true ∧
    handlerReturnsActionResult
      (notifySubscribers sendFailureTransports ["a", "b"]) = false := by
  decide

end Puzzlebox
